import Mathlib

/-!
Shallow embedding of the ccboot package (OpenChirp/ccboot), the host-side
client of the CC2650 serial ROM-bootloader protocol.  Wire bytes are
`Fin 256`; the serial port is modelled as a record of the pending read
events, the pending write outcomes, and a log of the byte sequences
written so far.  All definitions below are translated from ccboot.go and
types.go.
-/

namespace CCBoot

/-- Wire bytes are unsigned 8-bit values. -/
abbrev Byte := Fin 256

/-- numAttempts from ccboot.go: the fixed retry budget of the link layer. -/
def numAttempts : Nat := 3

/-- CC_ACK from types.go. -/
def CC_ACK : Byte := 0xCC

/-- CC_NACK from types.go. -/
def CC_NACK : Byte := 0x33

/-- COMMAND_CRC32 from types.go. -/
def COMMAND_CRC32 : Byte := 0x27

/-- COMMAND_GET_CHIP_ID from types.go. -/
def COMMAND_GET_CHIP_ID : Byte := 0x28

/-- COMMAND_MEMORY_READ from types.go. -/
def COMMAND_MEMORY_READ : Byte := 0x2A

/-- COMMAND_MEMORY_WRITE from types.go. -/
def COMMAND_MEMORY_WRITE : Byte := 0x2B

/-- COMMAND_SET_CCFG from types.go. -/
def COMMAND_SET_CCFG : Byte := 0x2D

/-- Errors of ccboot.go: ErrSerial, ErrDevice, ErrDeviceTimeout, ErrBadPacket
and ErrBadArguments; `transport` stands for an error returned by the
underlying reader or writer itself and propagated unchanged. -/
inductive PErr
  | transport
  | serial
  | deviceTimeout
  | device
  | badPacket
  | badArguments
deriving DecidableEq

/-- Outcome of one port.Read into a one-byte buffer: a transport error, a
zero-length (timed-out) read, one byte, or a byte count larger than the
buffer, which the code maps to ErrSerial. -/
inductive ReadEvent
  | rerr
  | timeout
  | byte (b : Byte)
  | multi
deriving DecidableEq

/-- Outcome of one port.Write: a full write, a short write (fewer bytes than
requested, which the code maps to ErrSerial), or a transport error. -/
inductive WriteEvent
  | full
  | short
  | werr
deriving DecidableEq

/-- State of the modelled serial port: the pending read events (an exhausted
list means the port keeps returning zero-length reads), the pending write
outcomes (an exhausted list means writes succeed in full), and the log of
the byte sequences written so far. -/
structure PortState where
  reads : List ReadEvent
  writeEvents : List WriteEvent
  writes : List (List Byte)
deriving DecidableEq

/-- One port.Write of the given bytes: consume the next write outcome and
log the written byte sequence. -/
def portWrite (data : List Byte) (st : PortState) : WriteEvent × PortState :=
  match st.writeEvents with
  | [] => (.full, { st with writes := st.writes ++ [data] })
  | e :: rest => (e, { st with writeEvents := rest, writes := st.writes ++ [data] })

/-- Loop of recvByte from ccboot.go over the pending read events.  The first
argument is the number of zero-length reads still allowed: Go counts
attempts upward and fails once attempts exceeds numAttempts, which allows
numAttempts + 1 zero-length reads in total.  An exhausted event list times
out on every further read, so the loop then fails with ErrDeviceTimeout
after spending its remaining budget. -/
def recvByteAux : Nat → List ReadEvent → Except PErr Byte × List ReadEvent
  | 0, reads => (.error .deviceTimeout, reads)
  | _ + 1, [] => (.error .deviceTimeout, [])
  | _ + 1, ReadEvent.rerr :: rest => (.error .transport, rest)
  | n + 1, ReadEvent.timeout :: rest => recvByteAux n rest
  | _ + 1, ReadEvent.multi :: rest => (.error .serial, rest)
  | _ + 1, ReadEvent.byte v :: rest => (.ok v, rest)

/-- Loop of recvNonZero from ccboot.go: as recvByteAux, but a 0x00 byte is
thrown away without touching the attempt counter. -/
def recvNonZeroAux : Nat → List ReadEvent → Except PErr Byte × List ReadEvent
  | 0, reads => (.error .deviceTimeout, reads)
  | _ + 1, [] => (.error .deviceTimeout, [])
  | _ + 1, ReadEvent.rerr :: rest => (.error .transport, rest)
  | n + 1, ReadEvent.timeout :: rest => recvNonZeroAux n rest
  | _ + 1, ReadEvent.multi :: rest => (.error .serial, rest)
  | n + 1, ReadEvent.byte v :: rest =>
    if v = 0 then recvNonZeroAux (n + 1) rest else (.ok v, rest)

/-- recvByte from ccboot.go lifted to the port state. -/
def recvByte (st : PortState) : Except PErr Byte × PortState :=
  ((recvByteAux (numAttempts + 1) st.reads).1,
   { st with reads := (recvByteAux (numAttempts + 1) st.reads).2 })

/-- recvNonZero from ccboot.go lifted to the port state. -/
def recvNonZero (st : PortState) : Except PErr Byte × PortState :=
  ((recvNonZeroAux (numAttempts + 1) st.reads).1,
   { st with reads := (recvNonZeroAux (numAttempts + 1) st.reads).2 })

/-- recvAck from ccboot.go forwards recvNonZero unchanged. -/
def recvAck (st : PortState) : Except PErr Byte × PortState :=
  recvNonZero st

/-- sendAck from ccboot.go: write the single acknowledgment byte; a transport
error propagates and a short write is ErrSerial. -/
def sendAck (ack : Byte) (st : PortState) : Except PErr Unit × PortState :=
  match portWrite [ack] st with
  | (.werr, st1) => (.error .transport, st1)
  | (.short, st1) => (.error .serial, st1)
  | (.full, st1) => (.ok (), st1)

/-- checksum from ccboot.go: the unsigned 8-bit wraparound sum of the data
bytes. -/
def checksum (data : List Byte) : Byte :=
  data.foldl (fun sum b => sum + b) 0

/-- Truncation of a machine integer to one byte, the Go byte(x) cast. -/
def toByte (n : Nat) : Byte :=
  ⟨n % 256, Nat.mod_lt n (by decide)⟩

/-- encodeSize from ccboot.go: byte(size & 0xFF). -/
def encodeSize (size : Nat) : Byte :=
  toByte size

/-- encodePacket from ccboot.go: [size, checksum, payload] with
size = 2 + len(data) truncated to one byte. -/
def encodePacket (data : List Byte) : List Byte :=
  encodeSize (2 + data.length) :: checksum data :: data

/-- decodePacket from ccboot.go: reject a packet shorter than 3 bytes, a
size byte pkt[0] different from len(pkt) mod 256, or a mismatch between
pkt[1] and the checksum over pkt[2:]; otherwise return pkt[2:].  The
indexing defaults of getD are unreachable because the length is at least 3
in the branches that use them. -/
def decodePacket (pkt : List Byte) : Except PErr (List Byte) :=
  if pkt.length < 3 then .error .badPacket
  else if encodeSize pkt.length ≠ pkt.getD 0 0 then .error .badPacket
  else if checksum (pkt.drop 2) ≠ pkt.getD 1 0 then .error .badPacket
  else .ok (pkt.drop 2)

/-- Command from types.go. -/
structure Command where
  type : Byte
  parameters : List Byte

/-- Command.Marshal from types.go: buf[0] is the type byte, the parameters
follow. -/
def Command.Marshal (c : Command) : List Byte :=
  c.type :: c.parameters

/-- encodeCmdPacket from ccboot.go. -/
def encodeCmdPacket (cmd : Byte) (parameters : List Byte) : List Byte :=
  encodePacket (Command.Marshal ⟨cmd, parameters⟩)

/-- Loop of SendPacket from ccboot.go: write the whole frame, then await an
acknowledgment via recvAck; a timeout of that read or any byte other than
CC_ACK re-sends the frame, any other receive error propagates, and an
exhausted attempt budget fails with ErrDevice. -/
def sendPacketAux (pkt : List Byte) : Nat → PortState → Except PErr Unit × PortState
  | 0, st => (.error .device, st)
  | n + 1, st =>
    match portWrite pkt st with
    | (.werr, st1) => (.error .transport, st1)
    | (.short, st1) => (.error .serial, st1)
    | (.full, st1) =>
      match recvAck st1 with
      | (.error PErr.deviceTimeout, st2) => sendPacketAux pkt n st2
      | (.error e, st2) => (.error e, st2)
      | (.ok ack, st2) =>
        if ack = CC_ACK then (.ok (), st2) else sendPacketAux pkt n st2

/-- SendPacket from ccboot.go. -/
def SendPacket (pkt : List Byte) (st : PortState) : Except PErr Unit × PortState :=
  sendPacketAux pkt numAttempts st

/-- Inner loop of RecvPacket from ccboot.go: read the declared number of
remaining frame bytes one at a time with recvByte. -/
def recvBytesAux : Nat → List ReadEvent → Except PErr (List Byte) × List ReadEvent
  | 0, reads => (.ok [], reads)
  | k + 1, reads =>
    match recvByteAux (numAttempts + 1) reads with
    | (.error e, r1) => (.error e, r1)
    | (.ok b, r1) =>
      match recvBytesAux k r1 with
      | (.error e, r2) => (.error e, r2)
      | (.ok bs, r2) => (.ok (b :: bs), r2)

/-- Loop of RecvPacket from ccboot.go: read a nonzero size byte, read
size - 1 further bytes into the frame whose first byte is the size byte,
and validate with decodePacket; a malformed frame is answered with one
CC_NACK byte followed by a full retry, a valid frame with one CC_ACK byte
and the decoded data; an exhausted attempt budget fails with ErrDevice and
any byte-level receive or acknowledgment-write error propagates. -/
def recvPacketAux : Nat → PortState → Except PErr (List Byte) × PortState
  | 0, st => (.error .device, st)
  | n + 1, st =>
    match recvNonZeroAux (numAttempts + 1) st.reads with
    | (.error e, r1) => (.error e, { st with reads := r1 })
    | (.ok size, r1) =>
      match recvBytesAux (size.val - 1) r1 with
      | (.error e, r2) => (.error e, { st with reads := r2 })
      | (.ok tail, r2) =>
        match decodePacket (size :: tail) with
        | .error _ =>
          match sendAck CC_NACK { st with reads := r2 } with
          | (.error e, st3) => (.error e, st3)
          | (.ok _, st3) => recvPacketAux n st3
        | .ok data =>
          match sendAck CC_ACK { st with reads := r2 } with
          | (.error e, st3) => (.error e, st3)
          | (.ok _, st3) => (.ok data, st3)

/-- RecvPacket from ccboot.go. -/
def RecvPacket (st : PortState) : Except PErr (List Byte) × PortState :=
  recvPacketAux numAttempts st

/-- ReadWriteType from types.go. -/
inductive RWType
  | t8
  | t32
deriving DecidableEq

/-- ReadWriteType byte values from types.go. -/
def rwByte : RWType → Byte
  | .t8 => 0
  | .t32 => 1

/-- ReadMaxCount8Bit from types.go. -/
def ReadMaxCount8Bit : Nat := 253

/-- ReadMaxCount32Bit from types.go. -/
def ReadMaxCount32Bit : Nat := 63

/-- WriteMaxCount8Bit from types.go. -/
def WriteMaxCount8Bit : Nat := 247

/-- WriteMaxCount32Bit from types.go. -/
def WriteMaxCount32Bit : Nat := 244

/-- Big-endian byte decomposition of a 32-bit value, as written inline by
Download, SectorErase, CRC32, MemoryRead, MemoryWrite and SetCCFG:
byte((x >> (k*8)) & 0xFF) for k = 3, 2, 1, 0. -/
def be32 (x : Nat) : List Byte :=
  [toByte (x >>> (3 * 8)), toByte (x >>> (2 * 8)), toByte (x >>> (1 * 8)), toByte (x >>> (0 * 8))]

/-- Big-endian u32 assembly by shifted bitwise or, as written inline in
GetChipID and CRC32. -/
def beLor (a b c d : Byte) : Nat :=
  ((a.val <<< (3 * 8)) ||| (b.val <<< (2 * 8))) ||| ((c.val <<< (1 * 8)) ||| d.val)

/-- GetChipID from ccboot.go: send the command, receive the reply, reject a
reply whose decoded length is not 4 with ErrDevice, else assemble the
big-endian chip id from data[0]..data[3] (the getD defaults are unreachable
after the length check). -/
def GetChipID (st : PortState) : Except PErr Nat × PortState :=
  match SendPacket (encodeCmdPacket COMMAND_GET_CHIP_ID []) st with
  | (.error e, st1) => (.error e, st1)
  | (.ok _, st1) =>
    match RecvPacket st1 with
    | (.error e, st2) => (.error e, st2)
    | (.ok data, st2) =>
      if data.length ≠ 4 then (.error .device, st2)
      else (.ok (beLor (data.getD 0 0) (data.getD 1 0) (data.getD 2 0) (data.getD 3 0)), st2)

/-- Result of the CRC32 call: the Go code has no length check on the reply,
so a reply shorter than 4 bytes makes the accesses data[0]..data[3] index
out of range and the call panics at runtime instead of returning. -/
inductive CrcResult
  | ok (v : Nat)
  | err (e : PErr)
  | panicked
deriving DecidableEq

/-- CRC32 from ccboot.go: send address, size and read-repeat count, then
assemble the reply bytes data[0]..data[3] without any reply-length check;
fewer than 4 reply bytes is an out-of-range slice index, modelled as
panicked. -/
def CRC32 (address size rcount : Nat) (st : PortState) : CrcResult × PortState :=
  match SendPacket (encodeCmdPacket COMMAND_CRC32 (be32 address ++ be32 size ++ be32 rcount)) st with
  | (.error e, st1) => (.err e, st1)
  | (.ok _, st1) =>
    match RecvPacket st1 with
    | (.error e, st2) => (.err e, st2)
    | (.ok data, st2) =>
      if data.length < 4 then (.panicked, st2)
      else (.ok (beLor (data.getD 0 0) (data.getD 1 0) (data.getD 2 0) (data.getD 3 0)), st2)

/-- MemoryRead from ccboot.go: reject a count above the per-type maximum
before any transport use, else send [address, type, count] and return the
reply bytes received. -/
def MemoryRead (address : Nat) (typ : RWType) (count : Byte) (st : PortState) :
    Except PErr (List Byte) × PortState :=
  if typ = .t8 ∧ ReadMaxCount8Bit < count.val then (.error .badArguments, st)
  else if typ = .t32 ∧ ReadMaxCount32Bit < count.val then (.error .badArguments, st)
  else
    match SendPacket (encodeCmdPacket COMMAND_MEMORY_READ (be32 address ++ [rwByte typ, count])) st with
    | (.error e, st1) => (.error e, st1)
    | (.ok _, st1) => RecvPacket st1

/-- MemoryWrite from ccboot.go: the length checks compare uint8(len(data)),
the length truncated to one byte; an unaligned 32-bit write is only logged
as a warning and then sent anyway. -/
def MemoryWrite (address : Nat) (typ : RWType) (data : List Byte) (st : PortState) :
    Except PErr Unit × PortState :=
  if typ = .t8 ∧ WriteMaxCount8Bit < data.length % 256 then (.error .badArguments, st)
  else if typ = .t32 ∧ WriteMaxCount32Bit < data.length % 256 then (.error .badArguments, st)
  else
    SendPacket (encodeCmdPacket COMMAND_MEMORY_WRITE (be32 address ++ (rwByte typ :: data))) st

/-- SetCCFG from ccboot.go: builds the big-endian field id and value, but
tags the command packet with COMMAND_CRC32 rather than COMMAND_SET_CCFG,
exactly as the source does. -/
def SetCCFG (id value : Nat) (st : PortState) : Except PErr Unit × PortState :=
  match SendPacket (encodeCmdPacket COMMAND_CRC32 (be32 id ++ be32 value)) st with
  | (.error e, st1) => (.error e, st1)
  | (.ok _, st1) => (.ok (), st1)

/-- Loop of recvNonZero from ccboot.go once more, over a total stream of
read events indexed by read number, with the attempt counter of the source
made explicit; the first Nat argument is an external step budget (none
means the loop has not returned within that many iterations), the returned
Nat is the index after the last read, i.e. the number of reads performed
when started at index 0. -/
def recvNonZeroGen (f : Nat → ReadEvent) : Nat → Nat → Nat → Option (Except PErr Byte × Nat)
  | 0, _, _ => none
  | fuel + 1, attempts, i =>
    if numAttempts < attempts then some (.error .deviceTimeout, i)
    else
      match f i with
      | .rerr => some (.error .transport, i + 1)
      | .timeout => recvNonZeroGen f fuel (attempts + 1) (i + 1)
      | .multi => some (.error .serial, i + 1)
      | .byte v =>
        if v = 0 then recvNonZeroGen f fuel attempts (i + 1)
        else some (.ok v, i + 1)


/-- Decidable equality of Except results, used to evaluate the model on
concrete inputs. -/
instance {ε α : Type} [DecidableEq ε] [DecidableEq α] : DecidableEq (Except ε α) := fun a b =>
  match a, b with
  | .error x, .error y =>
    if h : x = y then .isTrue (by rw [h]) else .isFalse (fun hc => by injection hc; contradiction)
  | .error _, .ok _ => .isFalse (fun hc => Except.noConfusion hc)
  | .ok _, .error _ => .isFalse (fun hc => Except.noConfusion hc)
  | .ok x, .ok y =>
    if h : x = y then .isTrue (by rw [h]) else .isFalse (fun hc => by injection hc; contradiction)

/-- The wraparound byte checksum is the plain sum of the byte values
reduced mod 256. -/
theorem checksum_val (data : List Byte) :
    (checksum data).val = (data.map Fin.val).sum % 256 := by
  have h : ∀ (l : List Byte) (acc : Byte),
      (l.foldl (fun sum b => sum + b) acc).val = (acc.val + (l.map Fin.val).sum) % 256 := by
    intro l
    induction l with
    | nil => intro acc; simp [Nat.mod_eq_of_lt acc.isLt]
    | cons b t ih =>
      intro acc
      simp only [List.foldl_cons, List.map_cons, List.sum_cons]
      rw [ih]
      have hv : (acc + b).val = (acc.val + b.val) % 256 := Fin.val_add acc b
      rw [hv]
      omega
  simpa [checksum] using h data 0

/-- Decoding inverts encoding for every nonempty payload. -/
theorem decode_encode (p : List Byte) (hp : 1 ≤ p.length) :
    decodePacket (encodePacket p) = .ok p := by
  simp only [encodePacket, decodePacket, List.length_cons, List.getD_cons_zero,
    List.getD_cons_succ, List.drop_succ_cons, List.drop_zero]
  rw [if_neg (by omega),
    if_neg (by rw [show p.length + 1 + 1 = 2 + p.length from by omega]; simp),
    if_neg (by simp)]

/-- C1 counterexample: the empty payload satisfies the claimed bound
len(P) ≤ 253, yet decodePacket rejects its encoding, since the encoded
frame [0x02, 0x00] is shorter than 3 bytes. -/
theorem roundtrip_fails_on_empty_payload :
    List.length ([] : List Byte) ≤ 253 ∧
    decodePacket (encodePacket []) = .error .badPacket ∧
    decodePacket (encodePacket []) ≠ .ok [] :=
  ⟨by decide, rfl, fun h => Except.noConfusion h⟩

/-- C1 (amended): for every payload P with 1 ≤ len(P) ≤ 253, decoding the
encoded frame returns exactly P. -/
theorem decode_encode_roundtrip (p : List Byte) (h1 : 1 ≤ p.length) (_h2 : p.length ≤ 253) :
    decodePacket (encodePacket p) = .ok p :=
  decode_encode p h1

/-- Witness for C1 at the one-byte payload [0x20]. -/
theorem decode_encode_roundtrip_witness :
    decodePacket (encodePacket [0x20]) = .ok [0x20] :=
  decode_encode_roundtrip [0x20] (by decide) (by decide)

/-- C2: decodePacket fails with BadPacket exactly when the frame is shorter
than 3 bytes, its size byte differs from len(frame) mod 256, or its
checksum byte differs from the wraparound sum of frame[2:]; in every other
case it succeeds with frame[2:]. -/
theorem decodePacket_badPacket_iff (pkt : List Byte) :
    (decodePacket pkt = .error .badPacket ↔
      (pkt.length < 3 ∨ (pkt.getD 0 0).val ≠ pkt.length % 256 ∨
        (pkt.getD 1 0).val ≠ ((pkt.drop 2).map Fin.val).sum % 256)) ∧
    (decodePacket pkt = .error .badPacket ∨ decodePacket pkt = .ok (pkt.drop 2)) := by
  have e1 : ((pkt.getD 0 0).val ≠ pkt.length % 256) ↔ (encodeSize pkt.length ≠ pkt.getD 0 0) := by
    simp only [encodeSize, toByte, ne_eq, Fin.ext_iff]
    constructor
    · intro h hc; exact h (by rw [← hc])
    · intro h hc; exact h (by rw [hc])
  have e2 : ((pkt.getD 1 0).val ≠ ((pkt.drop 2).map Fin.val).sum % 256) ↔
      (checksum (pkt.drop 2) ≠ pkt.getD 1 0) := by
    rw [← checksum_val]
    simp only [ne_eq, Fin.ext_iff]
    constructor
    · intro h hc; exact h (by rw [← hc])
    · intro h hc; exact h (by rw [hc])
  rw [e1, e2]
  unfold decodePacket
  by_cases h1 : pkt.length < 3
  · rw [if_pos h1]
    exact ⟨⟨fun _ => Or.inl h1, fun _ => rfl⟩, Or.inl rfl⟩
  · rw [if_neg h1]
    by_cases h2 : encodeSize pkt.length ≠ pkt.getD 0 0
    · rw [if_pos h2]
      exact ⟨⟨fun _ => Or.inr (Or.inl h2), fun _ => rfl⟩, Or.inl rfl⟩
    · rw [if_neg h2]
      by_cases h3 : checksum (pkt.drop 2) ≠ pkt.getD 1 0
      · rw [if_pos h3]
        exact ⟨⟨fun _ => Or.inr (Or.inr h3), fun _ => rfl⟩, Or.inl rfl⟩
      · rw [if_neg h3]
        refine ⟨⟨fun hc => absurd hc (fun hc2 => Except.noConfusion hc2), ?_⟩, Or.inr rfl⟩
        intro hor
        rcases hor with h | h | h
        · exact absurd h h1
        · exact absurd h h2
        · exact absurd h h3

/-- Witness for C2 at the short frame [0x02, 0x00]. -/
theorem decodePacket_badPacket_iff_witness :
    decodePacket [2, 0] = .error .badPacket :=
  (decodePacket_badPacket_iff [2, 0]).1.mpr (Or.inl (by decide))


/-- A port write always logs the written byte sequence, whatever its
outcome. -/
theorem portWrite_writes (data : List Byte) (st : PortState) :
    (portWrite data st).2.writes = st.writes ++ [data] := by
  rcases st with ⟨r, we, w⟩
  cases we <;> rfl

/-- Receiving bytes never writes. -/
theorem recvAck_writes (st : PortState) : (recvAck st).2.writes = st.writes := rfl

/-- Every run of the SendPacket loop writes the frame once per attempt
made and nothing else. -/
theorem sendPacketAux_writes (pkt : List Byte) :
    ∀ (n : Nat) (st : PortState), ∃ k, k ≤ n ∧ (1 ≤ n → 1 ≤ k) ∧
      (sendPacketAux pkt n st).2.writes = st.writes ++ List.replicate k pkt := by
  intro n
  induction n with
  | zero =>
    intro st
    exact ⟨0, Nat.le_refl 0, fun h => absurd h (by omega), by simp [sendPacketAux]⟩
  | succ n ih =>
    intro st
    rcases hw : portWrite pkt st with ⟨ev, st1⟩
    have hw1 : st1.writes = st.writes ++ [pkt] := by
      have h := portWrite_writes pkt st
      rw [hw] at h
      exact h
    cases ev with
    | full =>
      rcases hr : recvAck st1 with ⟨res, st2⟩
      have hst2 : st2.writes = st1.writes := by
        have h := recvAck_writes st1
        rw [hr] at h
        exact h
      cases res with
      | error e =>
        cases e with
        | deviceTimeout =>
          obtain ⟨k, hk, h1k, hkw⟩ := ih st2
          refine ⟨k + 1, by omega, fun _ => by omega, ?_⟩
          simp only [sendPacketAux, hw, hr]
          rw [hkw, hst2, hw1, List.append_assoc]
          rfl
        | transport =>
          refine ⟨1, by omega, fun _ => Nat.le_refl 1, ?_⟩
          simp only [sendPacketAux, hw, hr]
          rw [hst2, hw1]
          rfl
        | serial =>
          refine ⟨1, by omega, fun _ => Nat.le_refl 1, ?_⟩
          simp only [sendPacketAux, hw, hr]
          rw [hst2, hw1]
          rfl
        | device =>
          refine ⟨1, by omega, fun _ => Nat.le_refl 1, ?_⟩
          simp only [sendPacketAux, hw, hr]
          rw [hst2, hw1]
          rfl
        | badPacket =>
          refine ⟨1, by omega, fun _ => Nat.le_refl 1, ?_⟩
          simp only [sendPacketAux, hw, hr]
          rw [hst2, hw1]
          rfl
        | badArguments =>
          refine ⟨1, by omega, fun _ => Nat.le_refl 1, ?_⟩
          simp only [sendPacketAux, hw, hr]
          rw [hst2, hw1]
          rfl
      | ok ack =>
        by_cases hack : ack = CC_ACK
        · refine ⟨1, by omega, fun _ => Nat.le_refl 1, ?_⟩
          simp only [sendPacketAux, hw, hr, if_pos hack]
          rw [hst2, hw1]
          rfl
        · obtain ⟨k, hk, h1k, hkw⟩ := ih st2
          refine ⟨k + 1, by omega, fun _ => by omega, ?_⟩
          simp only [sendPacketAux, hw, hr, if_neg hack]
          rw [hkw, hst2, hw1, List.append_assoc]
          rfl
    | short =>
      refine ⟨1, by omega, fun _ => Nat.le_refl 1, ?_⟩
      simp only [sendPacketAux, hw]
      exact hw1
    | werr =>
      refine ⟨1, by omega, fun _ => Nat.le_refl 1, ?_⟩
      simp only [sendPacketAux, hw]
      exact hw1

/-- C3: SendPacket writes the identical full frame once per attempt, at
most numAttempts = 3 attempts in total; an immediate ACK means success
after a single write; the reply sequence NACK, NACK, ACK yields success
after exactly three identical writes; and a transport that never delivers
an acknowledgment byte yields ErrDevice after three identical writes. -/
theorem sendPacket_retry_spec :
    (∀ (pkt : List Byte) (st : PortState), ∃ k, 1 ≤ k ∧ k ≤ numAttempts ∧
        (SendPacket pkt st).2.writes = st.writes ++ List.replicate k pkt) ∧
    (∀ (pkt : List Byte) (rest : List ReadEvent),
        SendPacket pkt ⟨ReadEvent.byte CC_ACK :: rest, [], []⟩ = (.ok (), ⟨rest, [], [pkt]⟩)) ∧
    (∀ pkt : List Byte,
        SendPacket pkt ⟨[.byte 0x33, .byte 0x33, .byte 0xCC], [], []⟩ =
          (.ok (), ⟨[], [], List.replicate 3 pkt⟩)) ∧
    (∀ pkt : List Byte,
        SendPacket pkt ⟨[], [], []⟩ = (.error .device, ⟨[], [], List.replicate 3 pkt⟩)) := by
  refine ⟨?_, fun pkt rest => rfl, fun pkt => rfl, fun pkt => rfl⟩
  intro pkt st
  obtain ⟨k, hk, h1k, hw⟩ := sendPacketAux_writes pkt numAttempts st
  exact ⟨k, h1k (by decide), hk, hw⟩

/-- Witness for C3: the NACK, NACK, ACK scenario at a concrete frame. -/
theorem sendPacket_retry_spec_witness :
    SendPacket [0x55] ⟨[.byte 0x33, .byte 0x33, .byte 0xCC], [], []⟩ =
      (.ok (), ⟨[], [], List.replicate 3 [0x55]⟩) :=
  sendPacket_retry_spec.2.2.1 [0x55]


/-- Reading back a list of delivered bytes with the RecvPacket inner loop
returns exactly those bytes and consumes exactly those events. -/
theorem recvBytesAux_exact (l : List Byte) (rest : List ReadEvent) :
    recvBytesAux l.length (l.map ReadEvent.byte ++ rest) = (.ok l, rest) := by
  induction l generalizing rest with
  | nil => simp [recvBytesAux]
  | cons b t ih =>
    simp only [List.length_cons, List.map_cons, List.cons_append, List.append_eq,
      recvBytesAux, recvByteAux]
    rw [ih rest]

/-- A valid encoded frame delivered byte by byte is accepted by the
RecvPacket loop on its first attempt, answered with one ACK byte, with the
payload returned and the events after the frame left unread. -/
theorem recvPacket_good_frame (p : List Byte) (rest : List ReadEvent) (w : List (List Byte))
    (n : Nat) (h1 : 1 ≤ p.length) (h2 : p.length ≤ 253) :
    recvPacketAux (n + 1) ⟨(encodePacket p).map ReadEvent.byte ++ rest, [], w⟩ =
      (.ok p, ⟨rest, [], w ++ [[CC_ACK]]⟩) := by
  have hsz : (encodeSize (2 + p.length)).val = 2 + p.length := by
    simp only [encodeSize, toByte]
    omega
  have hs0 : ¬(encodeSize (2 + p.length) = 0) := by
    intro h
    have hv := congrArg Fin.val h
    rw [hsz] at hv
    simp at hv
  have hbytes := recvBytesAux_exact (checksum p :: p) rest
  simp only [List.map_cons, List.cons_append, List.length_cons] at hbytes
  have harg : (encodeSize (2 + p.length)).val - 1 = p.length + 1 := by
    rw [hsz]
    omega
  have hdec : decodePacket (encodeSize (2 + p.length) :: checksum p :: p) = .ok p :=
    decode_encode p h1
  simp only [recvPacketAux, encodePacket, List.map_cons, List.cons_append, List.append_eq,
    recvNonZeroAux, if_neg hs0, harg, hbytes, hdec, sendAck, portWrite]

/-- C4: the concrete bad-checksum stream 0x05 0x00 0x28 0x00 0x00 makes
RecvPacket send exactly one NACK byte and retry (the retry then times out
on the empty remainder); a valid encoded frame is answered with one ACK
byte and its payload is returned; three bad frames in a row exhaust the
attempts and fail with ErrDevice after three NACK writes. -/
theorem recvPacket_ack_nack_spec :
    (RecvPacket ⟨[.byte 5, .byte 0, .byte 0x28, .byte 0, .byte 0], [], []⟩ =
        (.error .deviceTimeout, ⟨[], [], [[CC_NACK]]⟩)) ∧
    (∀ (p : List Byte) (rest : List ReadEvent) (w : List (List Byte)),
        1 ≤ p.length → p.length ≤ 253 →
        RecvPacket ⟨(encodePacket p).map ReadEvent.byte ++ rest, [], w⟩ =
          (.ok p, ⟨rest, [], w ++ [[CC_ACK]]⟩)) ∧
    (RecvPacket ⟨[.byte 5, .byte 0, .byte 0x28, .byte 0, .byte 0,
                  .byte 5, .byte 0, .byte 0x28, .byte 0, .byte 0,
                  .byte 5, .byte 0, .byte 0x28, .byte 0, .byte 0], [], []⟩ =
        (.error .device, ⟨[], [], [[CC_NACK], [CC_NACK], [CC_NACK]]⟩)) := by
  refine ⟨rfl, ?_, rfl⟩
  intro p rest w h1 h2
  exact recvPacket_good_frame p rest w 2 h1 h2

/-- Witness for C4: a valid one-byte-payload frame is ACKed and decoded. -/
theorem recvPacket_ack_nack_spec_witness :
    RecvPacket ⟨(encodePacket [0x28]).map ReadEvent.byte ++ [], [], []⟩ =
      (.ok [0x28], ⟨[], [], [] ++ [[CC_ACK]]⟩) :=
  recvPacket_ack_nack_spec.2.1 [0x28] [] [] (by decide) (by decide)


/-- The nonzero-byte receive loop never produces ErrBadArguments. -/
theorem recvNonZeroAux_ne_badArguments :
    ∀ (l : List ReadEvent) (n : Nat), (recvNonZeroAux n l).1 ≠ .error .badArguments := by
  intro l
  induction l with
  | nil => intro n; cases n <;> simp [recvNonZeroAux]
  | cons e rest ih =>
    intro n
    cases n with
    | zero => simp [recvNonZeroAux]
    | succ m =>
      cases e with
      | rerr => simp [recvNonZeroAux]
      | timeout => exact ih m
      | multi => simp [recvNonZeroAux]
      | byte v =>
        by_cases hv : v = 0
        · simpa [recvNonZeroAux, hv] using ih (m + 1)
        · simp [recvNonZeroAux, hv]

/-- The byte receive loop never produces ErrBadArguments. -/
theorem recvByteAux_ne_badArguments :
    ∀ (l : List ReadEvent) (n : Nat), (recvByteAux n l).1 ≠ .error .badArguments := by
  intro l
  induction l with
  | nil => intro n; cases n <;> simp [recvByteAux]
  | cons e rest ih =>
    intro n
    cases n with
    | zero => simp [recvByteAux]
    | succ m =>
      cases e with
      | rerr => simp [recvByteAux]
      | timeout => exact ih m
      | multi => simp [recvByteAux]
      | byte v => simp [recvByteAux]

/-- The RecvPacket inner loop never produces ErrBadArguments. -/
theorem recvBytesAux_ne_badArguments :
    ∀ (k : Nat) (l : List ReadEvent), (recvBytesAux k l).1 ≠ .error .badArguments := by
  intro k
  induction k with
  | zero => intro l; simp [recvBytesAux]
  | succ k ih =>
    intro l
    rcases h1 : recvByteAux (numAttempts + 1) l with ⟨r1, l1⟩
    cases r1 with
    | error e =>
      have he : e ≠ PErr.badArguments := by
        have h := recvByteAux_ne_badArguments l (numAttempts + 1)
        rw [h1] at h
        simpa using h
      simp only [recvBytesAux, h1]
      simpa using he
    | ok b =>
      rcases h2 : recvBytesAux k l1 with ⟨r2, l2⟩
      cases r2 with
      | error e =>
        have he : e ≠ PErr.badArguments := by
          have h := ih l1
          rw [h2] at h
          simpa using h
        simp only [recvBytesAux, h1, h2]
        simpa using he
      | ok bs => simp [recvBytesAux, h1, h2]

/-- Writing an acknowledgment byte never produces ErrBadArguments. -/
theorem sendAck_ne_badArguments (a : Byte) (st : PortState) :
    (sendAck a st).1 ≠ .error .badArguments := by
  rcases hw : portWrite [a] st with ⟨ev, st1⟩
  cases ev <;> simp [sendAck, hw]

/-- The SendPacket loop never produces ErrBadArguments. -/
theorem sendPacketAux_ne_badArguments (pkt : List Byte) :
    ∀ (n : Nat) (st : PortState), (sendPacketAux pkt n st).1 ≠ .error .badArguments := by
  intro n
  induction n with
  | zero => intro st; simp [sendPacketAux]
  | succ n ih =>
    intro st
    rcases hw : portWrite pkt st with ⟨ev, st1⟩
    cases ev with
    | full =>
      rcases hr : recvAck st1 with ⟨res, st2⟩
      cases res with
      | error e =>
        cases e with
        | deviceTimeout =>
          simp only [sendPacketAux, hw, hr]
          exact ih st2
        | transport => simp [sendPacketAux, hw, hr]
        | serial => simp [sendPacketAux, hw, hr]
        | device => simp [sendPacketAux, hw, hr]
        | badPacket => simp [sendPacketAux, hw, hr]
        | badArguments =>
          have h : (recvAck st1).1 ≠ Except.error PErr.badArguments :=
            recvNonZeroAux_ne_badArguments st1.reads (numAttempts + 1)
          rw [hr] at h
          simp at h
      | ok ack =>
        by_cases hack : ack = CC_ACK
        · simp [sendPacketAux, hw, hr, if_pos hack]
        · simp only [sendPacketAux, hw, hr, if_neg hack]
          exact ih st2
    | short => simp [sendPacketAux, hw]
    | werr => simp [sendPacketAux, hw]

/-- Writing an acknowledgment byte appends exactly that byte to the write
log. -/
theorem sendAck_writes (a : Byte) (st : PortState) :
    (sendAck a st).2.writes = st.writes ++ [[a]] := by
  rcases hw : portWrite [a] st with ⟨ev, st1⟩
  have h1 : st1.writes = st.writes ++ [[a]] := by
    have h := portWrite_writes [a] st
    rw [hw] at h
    exact h
  cases ev <;> simp only [sendAck, hw] <;> exact h1

/-- The RecvPacket loop never produces ErrBadArguments. -/
theorem recvPacketAux_ne_badArguments :
    ∀ (n : Nat) (st : PortState), (recvPacketAux n st).1 ≠ .error .badArguments := by
  intro n
  induction n with
  | zero => intro st; simp [recvPacketAux]
  | succ n ih =>
    intro st
    rcases h1 : recvNonZeroAux (numAttempts + 1) st.reads with ⟨r1, l1⟩
    cases r1 with
    | error e =>
      have he : e ≠ PErr.badArguments := by
        have h := recvNonZeroAux_ne_badArguments st.reads (numAttempts + 1)
        rw [h1] at h
        simpa using h
      simp only [recvPacketAux, h1]
      simpa using he
    | ok size =>
      rcases h2 : recvBytesAux (size.val - 1) l1 with ⟨r2, l2⟩
      cases r2 with
      | error e =>
        have he : e ≠ PErr.badArguments := by
          have h := recvBytesAux_ne_badArguments (size.val - 1) l1
          rw [h2] at h
          simpa using h
        simp only [recvPacketAux, h1, h2]
        simpa using he
      | ok tail =>
        cases h3 : decodePacket (size :: tail) with
        | error e2 =>
          rcases h4 : sendAck CC_NACK { st with reads := l2 } with ⟨r4, st4⟩
          cases r4 with
          | error e4 =>
            have he : e4 ≠ PErr.badArguments := by
              have h := sendAck_ne_badArguments CC_NACK { st with reads := l2 }
              rw [h4] at h
              simpa using h
            simp only [recvPacketAux, h1, h2, h3, h4]
            simpa using he
          | ok u =>
            simp only [recvPacketAux, h1, h2, h3, h4]
            exact ih st4
        | ok data =>
          rcases h4 : sendAck CC_ACK { st with reads := l2 } with ⟨r4, st4⟩
          cases r4 with
          | error e4 =>
            have he : e4 ≠ PErr.badArguments := by
              have h := sendAck_ne_badArguments CC_ACK { st with reads := l2 }
              rw [h4] at h
              simpa using h
            simp only [recvPacketAux, h1, h2, h3, h4]
            simpa using he
          | ok u => simp [recvPacketAux, h1, h2, h3, h4]

/-- The RecvPacket loop only appends to the write log. -/
theorem recvPacketAux_writes :
    ∀ (n : Nat) (st : PortState), ∃ l, (recvPacketAux n st).2.writes = st.writes ++ l := by
  intro n
  induction n with
  | zero => intro st; exact ⟨[], by simp [recvPacketAux]⟩
  | succ n ih =>
    intro st
    rcases h1 : recvNonZeroAux (numAttempts + 1) st.reads with ⟨r1, l1⟩
    cases r1 with
    | error e => exact ⟨[], by simp [recvPacketAux, h1]⟩
    | ok size =>
      rcases h2 : recvBytesAux (size.val - 1) l1 with ⟨r2, l2⟩
      cases r2 with
      | error e => exact ⟨[], by simp [recvPacketAux, h1, h2]⟩
      | ok tail =>
        cases h3 : decodePacket (size :: tail) with
        | error e2 =>
          rcases h4 : sendAck CC_NACK { st with reads := l2 } with ⟨r4, st4⟩
          have hst4 : st4.writes = st.writes ++ [[CC_NACK]] := by
            have h := sendAck_writes CC_NACK { st with reads := l2 }
            rw [h4] at h
            exact h
          cases r4 with
          | error e4 =>
            refine ⟨[[CC_NACK]], ?_⟩
            simp only [recvPacketAux, h1, h2, h3, h4]
            exact hst4
          | ok u =>
            obtain ⟨l5, h5⟩ := ih st4
            refine ⟨[[CC_NACK]] ++ l5, ?_⟩
            simp only [recvPacketAux, h1, h2, h3, h4]
            rw [h5, hst4, List.append_assoc]
        | ok data =>
          rcases h4 : sendAck CC_ACK { st with reads := l2 } with ⟨r4, st4⟩
          have hst4 : st4.writes = st.writes ++ [[CC_ACK]] := by
            have h := sendAck_writes CC_ACK { st with reads := l2 }
            rw [h4] at h
            exact h
          cases r4 with
          | error e4 =>
            refine ⟨[[CC_ACK]], ?_⟩
            simp only [recvPacketAux, h1, h2, h3, h4]
            exact hst4
          | ok u =>
            refine ⟨[[CC_ACK]], ?_⟩
            simp only [recvPacketAux, h1, h2, h3, h4]
            exact hst4

/-- C5 (code bug): SetCCFG sends frames whose payload is tagged with the
CRC32 command-type byte 0x27 instead of the SetCCFG byte 0x2D; the field
id and value do follow it as 4 big-endian bytes each, so the third frame
byte (the first payload byte) is COMMAND_CRC32, not COMMAND_SET_CCFG. -/
theorem setCCFG_sends_crc32_type :
    (SetCCFG 0 0 ⟨[], [], []⟩).2.writes =
      List.replicate 3 (encodePacket (COMMAND_CRC32 :: (be32 0 ++ be32 0))) ∧
    ((SetCCFG 0 0 ⟨[], [], []⟩).2.writes.getD 0 []).getD 2 0 = COMMAND_CRC32 ∧
    COMMAND_CRC32 ≠ COMMAND_SET_CCFG :=
  ⟨rfl, rfl, by decide⟩

/-- C6 counterexample: a 6-byte 32-bit MemoryWrite has a length that is
not a multiple of 4, yet it is not rejected with BadArguments and its
frame is written to the transport; moreover a 256-byte 8-bit write, above
the claimed bound 247, is also not rejected because the source compares
uint8(len(data)) = 0. -/
theorem memoryWrite_claim_counterexample :
    ((MemoryWrite 0 .t32 (List.replicate 6 0) ⟨[], [], []⟩).1 = .error .device ∧
      (MemoryWrite 0 .t32 (List.replicate 6 0) ⟨[], [], []⟩).1 ≠ .error .badArguments ∧
      (MemoryWrite 0 .t32 (List.replicate 6 0) ⟨[], [], []⟩).2.writes ≠ []) ∧
    (MemoryWrite 0 .t8 (List.replicate 256 0) ⟨[], [], []⟩).1 ≠ .error .badArguments := by
  set_option maxRecDepth 8000 in
  refine ⟨⟨rfl, by decide, by decide⟩, ?_⟩
  intro h
  rw [show (MemoryWrite 0 .t8 (List.replicate 256 0) ⟨[], [], []⟩).1 = .error .device from
    by set_option maxRecDepth 8000 in rfl] at h
  exact PErr.noConfusion (Except.error.inj h)

/-- C6 (amended): MemoryWrite returns BadArguments, leaving the transport
untouched, exactly when the length truncated to uint8 exceeds 247 in
8-bit mode or 244 in 32-bit mode; an unaligned 32-bit length is only
logged, never rejected. -/
theorem memoryWrite_badArguments_iff (addr : Nat) (typ : RWType) (data : List Byte)
    (st : PortState) :
    ((MemoryWrite addr typ data st).1 = .error .badArguments ↔
      ((typ = .t8 ∧ WriteMaxCount8Bit < data.length % 256) ∨
        (typ = .t32 ∧ WriteMaxCount32Bit < data.length % 256))) ∧
    (((typ = .t8 ∧ WriteMaxCount8Bit < data.length % 256) ∨
        (typ = .t32 ∧ WriteMaxCount32Bit < data.length % 256)) →
      (MemoryWrite addr typ data st).2 = st) := by
  unfold MemoryWrite
  by_cases h8 : typ = RWType.t8 ∧ WriteMaxCount8Bit < data.length % 256
  · rw [if_pos h8]
    exact ⟨⟨fun _ => Or.inl h8, fun _ => rfl⟩, fun _ => rfl⟩
  · rw [if_neg h8]
    by_cases h32 : typ = RWType.t32 ∧ WriteMaxCount32Bit < data.length % 256
    · rw [if_pos h32]
      exact ⟨⟨fun _ => Or.inr h32, fun _ => rfl⟩, fun _ => rfl⟩
    · rw [if_neg h32]
      constructor
      · constructor
        · intro hbad
          exact absurd hbad (sendPacketAux_ne_badArguments _ numAttempts st)
        · intro hor
          rcases hor with h | h
          · exact absurd h h8
          · exact absurd h h32
      · intro hor
        rcases hor with h | h
        · exact absurd h h8
        · exact absurd h h32

set_option maxRecDepth 4000 in
/-- Witness for C6: a 245-byte 32-bit write is rejected before any
transport use; the port state is returned unchanged. -/
theorem memoryWrite_badArguments_iff_witness :
    (MemoryWrite 0 .t32 (List.replicate 245 0) ⟨[], [], []⟩).1 = .error .badArguments ∧
    (MemoryWrite 0 .t32 (List.replicate 245 0) ⟨[], [], []⟩).2 = ⟨[], [], []⟩ :=
  ⟨(memoryWrite_badArguments_iff 0 .t32 (List.replicate 245 0) ⟨[], [], []⟩).1.mpr
      (Or.inr ⟨rfl, by decide⟩),
    (memoryWrite_badArguments_iff 0 .t32 (List.replicate 245 0) ⟨[], [], []⟩).2
      (Or.inr ⟨rfl, by decide⟩)⟩

/-- A MemoryRead call whose count passes both bound checks is not rejected
with BadArguments and writes its command frame to the transport. -/
theorem memoryRead_passes (addr : Nat) (typ : RWType) (cnt : Byte) (st : PortState)
    (hc1 : ¬(typ = RWType.t8 ∧ ReadMaxCount8Bit < cnt.val))
    (hc2 : ¬(typ = RWType.t32 ∧ ReadMaxCount32Bit < cnt.val)) :
    (MemoryRead addr typ cnt st).1 ≠ .error .badArguments ∧
    ∃ ws, (MemoryRead addr typ cnt st).2.writes =
      st.writes ++ encodeCmdPacket COMMAND_MEMORY_READ (be32 addr ++ [rwByte typ, cnt]) :: ws := by
  unfold MemoryRead
  rw [if_neg hc1, if_neg hc2]
  rcases hs : SendPacket (encodeCmdPacket COMMAND_MEMORY_READ (be32 addr ++ [rwByte typ, cnt])) st
    with ⟨r, st1⟩
  obtain ⟨k, hk, h1k, hwr⟩ :=
    sendPacketAux_writes (encodeCmdPacket COMMAND_MEMORY_READ (be32 addr ++ [rwByte typ, cnt]))
      numAttempts st
  have hwr1 : st1.writes =
      st.writes ++ List.replicate k (encodeCmdPacket COMMAND_MEMORY_READ
        (be32 addr ++ [rwByte typ, cnt])) := by
    rw [show sendPacketAux (encodeCmdPacket COMMAND_MEMORY_READ (be32 addr ++ [rwByte typ, cnt]))
        numAttempts st =
      SendPacket (encodeCmdPacket COMMAND_MEMORY_READ (be32 addr ++ [rwByte typ, cnt])) st
      from rfl, hs] at hwr
    exact hwr
  have hk1 : 1 ≤ k := h1k (by decide)
  cases r with
  | error e =>
    constructor
    · have h : (SendPacket (encodeCmdPacket COMMAND_MEMORY_READ
          (be32 addr ++ [rwByte typ, cnt])) st).1 ≠ .error .badArguments :=
        sendPacketAux_ne_badArguments _ numAttempts st
      rw [hs] at h
      simp only [hs]
      simpa using h
    · cases k with
      | zero => omega
      | succ k2 =>
        refine ⟨List.replicate k2 (encodeCmdPacket COMMAND_MEMORY_READ
          (be32 addr ++ [rwByte typ, cnt])), ?_⟩
        simp only [hs]
        rw [hwr1]
        rfl
  | ok u =>
    constructor
    · simp only [hs]
      exact recvPacketAux_ne_badArguments numAttempts st1
    · obtain ⟨l, hl⟩ := recvPacketAux_writes numAttempts st1
      cases k with
      | zero => omega
      | succ k2 =>
        refine ⟨List.replicate k2 (encodeCmdPacket COMMAND_MEMORY_READ
          (be32 addr ++ [rwByte typ, cnt])) ++ l, ?_⟩
        simp only [hs, RecvPacket]
        rw [hl, hwr1, List.append_assoc]
        rfl

/-- C8: MemoryRead rejects count 254 and 255 in 8-bit mode and any count
above 63 in 32-bit mode with BadArguments, returning the port state
untouched; count 253 in 8-bit mode and count 63 in 32-bit mode pass the
checks, are not rejected, and the command frame reaches the transport. -/
theorem memoryRead_bounds_spec (addr : Nat) (st : PortState) (c : Byte) :
    (MemoryRead addr .t8 254 st = (.error .badArguments, st)) ∧
    (MemoryRead addr .t8 255 st = (.error .badArguments, st)) ∧
    (63 < c.val → MemoryRead addr .t32 c st = (.error .badArguments, st)) ∧
    ((MemoryRead addr .t8 253 st).1 ≠ .error .badArguments ∧
      ∃ ws, (MemoryRead addr .t8 253 st).2.writes =
        st.writes ++ encodeCmdPacket COMMAND_MEMORY_READ (be32 addr ++ [rwByte .t8, 253]) :: ws) ∧
    ((MemoryRead addr .t32 63 st).1 ≠ .error .badArguments ∧
      ∃ ws, (MemoryRead addr .t32 63 st).2.writes =
        st.writes ++ encodeCmdPacket COMMAND_MEMORY_READ (be32 addr ++ [rwByte .t32, 63]) :: ws) := by
  refine ⟨rfl, rfl, ?_, memoryRead_passes addr .t8 253 st (by decide) (by decide),
    memoryRead_passes addr .t32 63 st (by decide) (by decide)⟩
  intro hc
  unfold MemoryRead
  rw [if_neg (by rintro ⟨h, -⟩; exact RWType.noConfusion h), if_pos ⟨rfl, hc⟩]

/-- Witness for C8: count 64 in 32-bit mode is rejected with the port
state unchanged. -/
theorem memoryRead_bounds_spec_witness :
    MemoryRead 0 RWType.t32 64 ⟨[], [], []⟩ = (.error .badArguments, ⟨[], [], []⟩) :=
  (memoryRead_bounds_spec 0 ⟨[], [], []⟩ 64).2.2.1 (by decide)


/-- C7 (code bug): a CRC32 exchange whose reply frame decodes to the
1-byte payload [0x01] does not surface an error: the source indexes
data[0]..data[3] without any reply-length check, so the call panics with
an out-of-range index; the ACK for the reply frame has already been
written when this happens. -/
theorem crc32_short_reply_panics :
    CRC32 0 0 0 ⟨[.byte 0xCC, .byte 3, .byte 1, .byte 1], [], []⟩ =
      (.panicked,
        ⟨[], [], [encodeCmdPacket COMMAND_CRC32 (be32 0 ++ be32 0 ++ be32 0), [CC_ACK]]⟩) :=
  rfl

/-- C9: after a successful send and receive, GetChipID rejects any decoded
reply whose length is not 4 with ErrDevice, and decodes a 4-byte reply as
the big-endian u32 assembled from its bytes; the reply [0x00,0x00,0x01,0x00]
decodes to 256. -/
theorem getChipID_spec (st st1 st2 : PortState) (data : List Byte)
    (hsend : SendPacket (encodeCmdPacket COMMAND_GET_CHIP_ID []) st = (.ok (), st1))
    (hrecv : RecvPacket st1 = (.ok data, st2)) :
    (data.length ≠ 4 → GetChipID st = (.error .device, st2)) ∧
    (∀ a b c d : Byte, data = [a, b, c, d] → GetChipID st = (.ok (beLor a b c d), st2)) ∧
    (data = [0, 0, 1, 0] → GetChipID st = (.ok 256, st2)) := by
  have hG : GetChipID st =
      (if data.length ≠ 4 then (.error .device, st2)
       else (.ok (beLor (data.getD 0 0) (data.getD 1 0) (data.getD 2 0) (data.getD 3 0)), st2)) := by
    simp only [GetChipID, hsend, hrecv]
  refine ⟨?_, ?_, ?_⟩
  · intro hlen
    rw [hG, if_pos hlen]
  · intro a b c d hdata
    subst hdata
    rw [hG]
    rfl
  · intro hdata
    subst hdata
    rw [hG]
    rfl

/-- Witness for C9: a concrete exchange in which the device ACKs the
command and replies with the valid frame 0x06 0x01 0x00 0x00 0x01 0x00,
whose payload [0x00,0x00,0x01,0x00] decodes to chip id 256. -/
theorem getChipID_spec_witness :
    GetChipID ⟨[.byte 0xCC, .byte 6, .byte 1, .byte 0, .byte 0, .byte 1, .byte 0], [], []⟩ =
      (.ok 256, ⟨[], [], [[3, 0x28, 0x28], [0xCC]]⟩) :=
  (getChipID_spec
      ⟨[.byte 0xCC, .byte 6, .byte 1, .byte 0, .byte 0, .byte 1, .byte 0], [], []⟩
      ⟨[.byte 6, .byte 1, .byte 0, .byte 0, .byte 1, .byte 0], [], [[3, 0x28, 0x28]]⟩
      ⟨[], [], [[3, 0x28, 0x28], [0xCC]]⟩
      [0, 0, 1, 0] rfl rfl).2.2 rfl

/-- One iteration of the recvNonZero loop on a 0x00 byte: the byte is
discarded and the attempt counter is left unchanged. -/
theorem recvNonZeroGen_zero_step (f : Nat → ReadEvent) (k a i : Nat) (ha : a ≤ numAttempts)
    (hf : f i = ReadEvent.byte 0) :
    recvNonZeroGen f (k + 1) a i = recvNonZeroGen f k a (i + 1) := by
  rw [recvNonZeroGen, if_neg (Nat.not_lt.mpr ha), hf]
  simp

/-- One iteration of the recvNonZero loop on a nonzero byte: it is
returned at once. -/
theorem recvNonZeroGen_nonzero_step (f : Nat → ReadEvent) (k a i : Nat) (v : Byte)
    (ha : a ≤ numAttempts) (hv : v ≠ 0) (hf : f i = ReadEvent.byte v) :
    recvNonZeroGen f (k + 1) a i = some (.ok v, i + 1) := by
  rw [recvNonZeroGen, if_neg (Nat.not_lt.mpr ha), hf]
  simp [hv]

/-- Reading a run of n zero bytes followed by a nonzero byte b makes the
recvNonZero loop return b with the attempt counter still at its starting
value, after exactly n + 1 reads. -/
theorem recvNonZeroGen_skips_zeros (f : Nat → ReadEvent) (b : Byte) (hb : b ≠ 0) :
    ∀ (n i : Nat), (∀ j, j < n → f (i + j) = .byte 0) → f (i + n) = .byte b →
      recvNonZeroGen f (n + 1) 0 i = some (.ok b, i + n + 1) := by
  intro n
  induction n with
  | zero =>
    intro i h0 hn
    rw [recvNonZeroGen_nonzero_step f 0 0 i b (by decide) hb (by simpa using hn)]
  | succ n ih =>
    intro i h0 hn
    rw [recvNonZeroGen_zero_step f (n + 1) 0 i (by decide) (by simpa using h0 0 (by omega))]
    have harg1 : ∀ j, j < n → f (i + 1 + j) = ReadEvent.byte 0 := by
      intro j hj
      have h := h0 (j + 1) (by omega)
      rw [show i + (j + 1) = i + 1 + j from by omega] at h
      exact h
    have harg2 : f (i + 1 + n) = ReadEvent.byte b := by
      rw [show i + 1 + n = i + (n + 1) from by omega]
      exact hn
    rw [ih (i + 1) harg1 harg2]
    rw [show i + 1 + n + 1 = i + (n + 1) + 1 from by omega]

/-- If the recvNonZero loop returns within its step budget, some read from
the starting index onward delivered something other than a 0x00 byte. -/
theorem recvNonZeroGen_some_reads_nonzero (f : Nat → ReadEvent) :
    ∀ (k a i : Nat) (r : Except PErr Byte × Nat), a ≤ numAttempts →
      recvNonZeroGen f k a i = some r → ∃ j, i ≤ j ∧ f j ≠ .byte 0 := by
  intro k
  induction k with
  | zero =>
    intro a i r _ h
    simp [recvNonZeroGen] at h
  | succ k ih =>
    intro a i r ha h
    rw [recvNonZeroGen, if_neg (Nat.not_lt.mpr ha)] at h
    cases hf : f i with
    | rerr => exact ⟨i, Nat.le_refl i, by rw [hf]; exact fun hc => ReadEvent.noConfusion hc⟩
    | timeout => exact ⟨i, Nat.le_refl i, by rw [hf]; exact fun hc => ReadEvent.noConfusion hc⟩
    | multi => exact ⟨i, Nat.le_refl i, by rw [hf]; exact fun hc => ReadEvent.noConfusion hc⟩
    | byte v =>
      by_cases hv : v = 0
      · rw [hf] at h
        simp only [hv, if_pos rfl] at h
        obtain ⟨j, hj, hnz⟩ := ih a (i + 1) r ha h
        exact ⟨j, by omega, hnz⟩
      · refine ⟨i, Nat.le_refl i, ?_⟩
        rw [hf]
        intro hc
        exact hv (by injection hc)

/-- C10: in recvNonZero only zero-length reads consume the timeout budget.
A 0x00 byte is discarded without touching the attempt counter; for every
n, the stream of n zero bytes followed by a nonzero byte b makes the loop
perform n + 1 reads (more than n) before returning b; the loop can only
return after reading some event other than a 0x00 byte; and on the
unbounded all-zero stream it never returns at all, in particular it never
produces the Timeout error. -/
theorem recvNonZero_zero_padding_spec :
    (∀ (f : Nat → ReadEvent) (k a i : Nat), a ≤ numAttempts → f i = ReadEvent.byte 0 →
        recvNonZeroGen f (k + 1) a i = recvNonZeroGen f k a (i + 1)) ∧
    (∀ (n : Nat) (b : Byte) (f : Nat → ReadEvent), b ≠ 0 →
        (∀ j, j < n → f j = ReadEvent.byte 0) → f n = ReadEvent.byte b →
        recvNonZeroGen f (n + 1) 0 0 = some (.ok b, n + 1)) ∧
    (∀ (f : Nat → ReadEvent) (k a i : Nat) (r : Except PErr Byte × Nat), a ≤ numAttempts →
        recvNonZeroGen f k a i = some r → ∃ j, i ≤ j ∧ f j ≠ ReadEvent.byte 0) ∧
    (∀ (k a i : Nat), a ≤ numAttempts →
        recvNonZeroGen (fun _ => ReadEvent.byte 0) k a i = none) := by
  refine ⟨?_, ?_, fun f => recvNonZeroGen_some_reads_nonzero f, ?_⟩
  · intro f k a i ha hf
    rw [recvNonZeroGen, if_neg (Nat.not_lt.mpr ha), hf]
    simp
  · intro n b f hb h0 hn
    have h := recvNonZeroGen_skips_zeros f b hb n 0
      (fun j hj => by simpa using h0 j hj) (by simpa using hn)
    simpa using h
  · intro k a i ha
    cases h : recvNonZeroGen (fun _ => ReadEvent.byte 0) k a i with
    | none => rfl
    | some r =>
      obtain ⟨j, _, hnz⟩ := recvNonZeroGen_some_reads_nonzero (fun _ => ReadEvent.byte 0) k a i r ha h
      exact absurd rfl hnz

/-- Witness for C10: two zero bytes followed by 0x05 yield 0x05 after
three reads, within fuel 3, starting from attempt counter 0. -/
theorem recvNonZero_zero_padding_witness :
    recvNonZeroGen (fun i => if i < 2 then ReadEvent.byte 0 else ReadEvent.byte 5) 3 0 0 =
      some (.ok 5, 3) :=
  recvNonZero_zero_padding_spec.2.1 2 5
    (fun i => if i < 2 then ReadEvent.byte 0 else ReadEvent.byte 5)
    (by decide) (by decide) rfl

end CCBoot
